import Mathlib

/-
Verification development for the MethodEditor repository.

The definitions below are shallow embeddings of the Python functions of the
same names from `MethodEditor_Main.py` and `Parameters.py`:

  * `Function` and `MethodParams` embed the data containers (only the fields
    that the embedded computations read are included; purely UI / file-path
    fields are omitted).
  * Exact-decimal (`decimal.Decimal`) times, masses and voltages are embedded
    as rationals, whose addition, comparison and ordering agree with exact
    decimal arithmetic.
  * Python lists built by repeated `append` are embedded as Lean lists built
    by appending on the right.
  * Functions whose Python counterpart can raise (e.g. `IndexError` on an
    empty list, `KeyError` on a dictionary miss) return an `Option`.

Theorems at the end of the file settle the specification claims.
-/

namespace MethodEditor

/-! ### String helpers

Python code throughout the repository dispatches on
`line.lower().startswith(marker)`.  `pyLower` embeds `str.lower` (the
templates are ASCII) and `lstarts line marker` embeds the combined test. -/

def pyLower (s : List Char) : List Char := s.map Char.toLower

def lstarts (line : String) (marker : String) : Prop :=
  marker.data <+: pyLower line.data

instance (line marker : String) : Decidable (lstarts line marker) :=
  inferInstanceAs (Decidable (_ <+: _))

/-- Two markers that both case-insensitively begin the same line must be
prefixes of one another, so a line that starts with `p` cannot also start
with an incomparable marker `q`. -/
theorem lstarts_excl {line p q : String} (h : lstarts line p)
    (hlen : q.data.length ≤ p.data.length) (hq : ¬ q.data <+: p.data) :
    ¬ lstarts line q := fun hcon =>
  hq (List.prefix_of_prefix_length_le hcon h hlen)

/-! ### Data containers -/

/-- Embeds the `Function` dataclass of `MethodEditor_Main.py`: container for
a single timed acquisition function. -/
structure Function where
  msms_mode : Bool
  select_mz : ℚ
  ms_start : ℚ
  ms_end : ℚ
  cv : ℚ
  scantime : ℚ
  start_time : ℚ
  stop_time : ℚ
deriving DecidableEq, Repr

/-- Embeds the fields of `Parameters.MethodParams` that the embedded
computations read.  UI and filesystem fields (`cal_file`, `tune_file`,
`output_dir`, `masslynx_dir`, `save_to_masslynx`, `save_dt`, `date`,
`base_file_path`, `params_dict`) play no role in any embedded function and
are omitted. -/
structure MethodParams where
  combine_all_bool : Bool
  msms_bool : Bool
  optic_mode : String
  functions_per_file : ℤ
  delay_time_init : ℚ
  mz : ℚ
  sample_name : String
  cv_step : ℚ
  cv_start : ℚ
  cv_end : ℚ
  ms_start : ℚ
  ms_end : ℚ
  collect_time : ℚ
  scan_time : ℚ
deriving DecidableEq, Repr

/-- Embeds the module-level `optics_dict` of `MethodEditor_Main.py`.
A Python dictionary lookup raises `KeyError` on a miss, hence `Option`. -/
def optics_dict (mode : String) : Option ℕ :=
  if mode = "sensitivity" then some 2
  else if mode = "resolution" then some 0
  else if mode = "high_resolution" then some 1
  else none

/-! ### `split_to_multiple_files` (MethodEditor_Main.py lines 134-157) -/

/-- The `for func in func_list` loop of `split_to_multiple_files`, with the
loop variables `func_counter`, `output_lists` and `current_output_list`
threaded explicitly; the trailing `output_lists.append(current_output_list)`
happens when the input is exhausted. -/
def split_loop (num_funcs_per_file : ℤ) :
    List Function → ℤ → List (List Function) → List Function → List (List Function)
  | [], _, output_lists, current_output_list => output_lists ++ [current_output_list]
  | func :: rest, func_counter, output_lists, current_output_list =>
    if func_counter > num_funcs_per_file then
      split_loop num_funcs_per_file rest 1 (output_lists ++ [current_output_list]) [func]
    else
      split_loop num_funcs_per_file rest (func_counter + 1) output_lists
        (current_output_list ++ [func])

/-- Embeds `split_to_multiple_files`: `func_counter` starts at `1`,
`output_lists` and `current_output_list` start empty. -/
def split_to_multiple_files (func_list : List Function) (num_funcs_per_file : ℤ) :
    List (List Function) :=
  split_loop num_funcs_per_file func_list 1 [] []

/-! ### `parse_value` (Parameters.py lines 119-149)

`parse_value` first tries Python's `int(value)`, then `float(value)` /
`Decimal(value)`, then boolean keywords, falling back to the raw string;
before each numeric attempt it raises `ValueError` when the string contains
an underscore.  `pyInt` and `pyDec` embed the numeric literal parsers:
optional surrounding whitespace, an optional sign, digit sequences with
single underscores permitted between digits for `pyInt`, and an optional
fractional part and exponent for `pyDec` (the non-finite forms `inf`/`nan`
are not embedded; no theorem below depends on them, because `parse_value`
guards every numeric attempt behind the underscore check that the claims
are about). -/

/-- Result type of `parse_value`. -/
inductive PyValue where
  | none
  | intVal (z : ℤ)
  | decVal (q : ℚ)
  | boolVal (b : Bool)
  | strVal (s : String)
deriving DecidableEq, Repr

def digitVal (c : Char) : ℕ := c.toNat - 48

/-- Digits continuing a numeric literal; a single underscore may appear
between two digits (Python 3.6+ grouping). -/
def pyDigitsRest (acc : ℕ) : List Char → Option ℕ
  | [] => some acc
  | '_' :: c :: rest =>
    if c.isDigit then pyDigitsRest (acc * 10 + digitVal c) rest else none
  | ['_'] => none
  | c :: rest =>
    if c.isDigit then pyDigitsRest (acc * 10 + digitVal c) rest else none

/-- A non-empty digit group. -/
def pyDigits : List Char → Option ℕ
  | [] => none
  | c :: rest => if c.isDigit then pyDigitsRest (digitVal c) rest else none

/-- `str.strip()` for whitespace, as applied by Python's numeric parsers. -/
def pyStrip (l : List Char) : List Char :=
  ((l.dropWhile Char.isWhitespace).reverse.dropWhile Char.isWhitespace).reverse

/-- Embeds `int(value)` for string arguments. -/
def pyInt (s : String) : Option ℤ :=
  match pyStrip s.data with
  | '+' :: rest => (pyDigits rest).map fun n => (n : ℤ)
  | '-' :: rest => (pyDigits rest).map fun n => -(n : ℤ)
  | rest => (pyDigits rest).map fun n => (n : ℤ)

/-- Leading digits of a decimal literal: returns their value, their count
and the unconsumed remainder. -/
def pyDecDigits : List Char → ℕ × ℕ × List Char
  | [] => (0, 0, [])
  | c :: rest =>
    if c.isDigit then
      let r := pyDecDigits rest
      (digitVal c * 10 ^ r.2.1 + r.1, r.2.1 + 1, r.2.2)
    else (0, 0, c :: rest)

/-- Optional exponent suffix of a decimal literal (empty input means
exponent `0`; anything else must be a complete well-formed exponent). -/
def pyDecExp : List Char → Option ℤ
  | [] => some 0
  | e :: rest =>
    if e = 'e' ∨ e = 'E' then
      let signed : ℤ × List Char :=
        match rest with
        | '+' :: r => (1, r)
        | '-' :: r => (-1, r)
        | r => (1, r)
      let d := pyDecDigits signed.2
      if d.2.1 = 0 ∨ d.2.2 ≠ [] then none
      else some (signed.1 * (d.1 : ℤ))
    else none

/-- Embeds the finite-literal fragment of `float(value)` / `Decimal(value)`:
optional sign, digits with an optional fractional part (at least one digit
overall), optional exponent. -/
def pyDec (s : String) : Option ℚ :=
  let stripped := pyStrip s.data
  let signed : ℚ × List Char :=
    match stripped with
    | '+' :: r => (1, r)
    | '-' :: r => (-1, r)
    | r => (1, r)
  let ip := pyDecDigits signed.2
  let fp : ℕ × ℕ × List Char :=
    match ip.2.2 with
    | '.' :: r => pyDecDigits r
    | r => (0, 0, r)
  if ip.2.1 + fp.2.1 = 0 then none
  else
    match pyDecExp fp.2.2 with
    | some ex =>
      some (signed.1 * ((ip.1 * 10 ^ fp.2.1 + fp.1 : ℚ) / 10 ^ fp.2.1) * (10 : ℚ) ^ ex)
    | none => none

/-- Embeds `Parameters.parse_value`: `'None'` first, then `int` (guarded by
the underscore check), then `float`/`Decimal` (same guard), then boolean
keywords, else the raw string. -/
def parse_value (value : String) : PyValue :=
  if value = "None" then PyValue.none
  else
    match (if '_' ∈ value.data then none else pyInt value) with
    | some z => PyValue.intVal z
    | none =>
      match (if '_' ∈ value.data then none else pyDec value) with
      | some q => PyValue.decVal q
      | none =>
        if String.mk (pyLower value.data) ∈ ["true", "t", "yes", "y"] then PyValue.boolVal true
        else if String.mk (pyLower value.data) ∈ ["false", "f", "no", "n"] then PyValue.boolVal false
        else PyValue.strVal value

/-! ### `make_funcs` (MethodEditor_Main.py lines 320-365)

The Python `while current_voltage <= param_obj.cv_end` loop adds
`cv_step` to the voltage on every iteration, so for a positive step it runs
exactly `⌊(cv_end - cv_start) / cv_step⌋ + 1` times when
`cv_start ≤ cv_end` (and zero times otherwise).  The embedding runs the
loop body on that iteration count, keeping the guard `v ≤ cv_end` of the
source inside each step; `make_funcs_ramp_extra_fuel` below checks that
granting the loop even more iterations changes nothing, i.e. that the count
is not a hidden truncation.  (For a non-positive step the Python loop would
not terminate; no theorem below concerns that case.) -/

/-- One `Function` emitted by the body of the `while` loop, at clock `t`
and voltage `v`. -/
def mk_ramp_func (p : MethodParams) (t v : ℚ) : Function :=
  { msms_mode := p.msms_bool
    select_mz := p.mz
    ms_start := p.ms_start
    ms_end := p.ms_end
    cv := v
    scantime := p.scan_time
    start_time := t
    stop_time := t + p.collect_time }

/-- The `while` loop of `make_funcs`, returning the emitted functions and
the final value of `current_time`. -/
def make_funcs_ramp (p : MethodParams) : ℕ → ℚ → ℚ → List Function × ℚ
  | 0, t, _ => ([], t)
  | n + 1, t, v =>
    if v ≤ p.cv_end then
      let rest := make_funcs_ramp p n (t + p.collect_time) (v + p.cv_step)
      (mk_ramp_func p t v :: rest.1, rest.2)
    else ([], t)

/-- Number of iterations of the `while` loop for a positive `cv_step`
(`Rat.floor` is the computable floor on `ℚ`). -/
def ramp_count (p : MethodParams) : ℕ :=
  (((p.cv_end - p.cv_start) / p.cv_step).floor + 1).toNat

/-- The body of the `for param_obj in param_obj_list` loop of `make_funcs`:
the optional initial-delay function followed by the voltage ramp, threading
`current_time`; `current_voltage` restarts at `p.cv_start`. -/
def make_funcs_one (p : MethodParams) (t : ℚ) : List Function × ℚ :=
  let d : List Function × ℚ :=
    if 0 < p.delay_time_init then
      ([{ msms_mode := p.msms_bool
          select_mz := p.mz
          ms_start := p.ms_start
          ms_end := p.ms_end
          cv := p.cv_start
          scantime := p.scan_time
          start_time := t
          stop_time := t + p.delay_time_init }], t + p.delay_time_init)
    else ([], t)
  let r := make_funcs_ramp p (ramp_count p) d.2 p.cv_start
  (d.1 ++ r.1, r.2)

/-- The `for` loop of `make_funcs` over all parameter containers. -/
def make_funcs_go : List MethodParams → ℚ → List Function
  | [], _ => []
  | p :: rest, t =>
    let one := make_funcs_one p t
    one.1 ++ make_funcs_go rest one.2

/-- Embeds `make_funcs`: `current_time` starts at `0`. -/
def make_funcs (param_obj_list : List MethodParams) : List Function :=
  make_funcs_go param_obj_list 0

/-- `TimedFrom t l tEnd`: the records of `l` cover the clock contiguously
from `t` to `tEnd` — each record starts when told and hands its stop time
to its successor. -/
def TimedFrom : ℚ → List Function → ℚ → Prop
  | t, [], tEnd => tEnd = t
  | t, f :: rest, tEnd => f.start_time = t ∧ TimedFrom f.stop_time rest tEnd

/-! ### `get_basefile_lines` (MethodEditor_Main.py lines 281-317) -/

/-- The mode-dependent end-of-function-block test of `get_basefile_lines`:
`scanssum` in MSMS mode, `fastddamsmsscantime` in MS mode. -/
def term_marker (msms_bool : Bool) (line : String) : Prop :=
  if msms_bool then lstarts line "scanssum" else lstarts line "fastddamsmsscantime"

instance (msms_bool : Bool) (line : String) : Decidable (term_marker msms_bool line) := by
  unfold term_marker
  split <;> infer_instance

/-- Loop state of `get_basefile_lines`: the two flags and the three line
buffers. -/
structure SegState where
  header : Bool
  footer : Bool
  header_lines : List String
  function_lines : List String
  footer_lines : List String
deriving DecidableEq, Repr

/-- One iteration of the `for line in list(basefile)` loop: the `header`
flag is cleared by a `function 1` line *before* the line is filed, the
`footer` flag is set by the terminal marker *after* the line is filed.
(The `function 2` check only prints a console warning and touches no
state, so it has no embedding.) -/
def seg_step (msms_bool : Bool) (st : SegState) (line : String) : SegState :=
  let header := if lstarts line "function 1" then false else st.header
  let buffers : List String × List String × List String :=
    if header then (st.header_lines ++ [line], st.function_lines, st.footer_lines)
    else if st.footer then (st.header_lines, st.function_lines, st.footer_lines ++ [line])
    else (st.header_lines, st.function_lines ++ [line], st.footer_lines)
  let footer := if term_marker msms_bool line then true else st.footer
  { header := header
    footer := footer
    header_lines := buffers.1
    function_lines := buffers.2.1
    footer_lines := buffers.2.2 }

/-- Embeds `get_basefile_lines` on the template's lines: `header_lines`
starts empty, `function_lines` starts as the single blank line `'\n'`,
`footer_lines` starts empty, and the final header line is dropped
(`header_lines[:-1]`). -/
def get_basefile_lines (lines : List String) (msms_bool : Bool) :
    List String × List String × List String :=
  let st := lines.foldl (seg_step msms_bool) ⟨true, false, [], ["\n"], []⟩
  (st.header_lines.dropLast, st.function_lines, st.footer_lines)

/-! ### `gen_function_lines` (MethodEditor_Main.py lines 234-278) -/

/-- The per-line rewrite of `gen_function_lines`: an `elif` chain over
case-insensitive line prefixes.  The `useopticmode` branch performs the
`optics_dict[optic_mode]` lookup, which raises `KeyError` for an unknown
mode, hence the `Option` result. -/
def gen_function_line (func : Function) (index : ℕ) (optic_mode : String)
    (line : String) : Option String :=
  if lstarts line "function " then some ("FUNCTION " ++ toString index ++ "\n")
  else if lstarts line "useopticmode" then
    (optics_dict optic_mode).map fun code => "UseOpticMode," ++ toString code ++ "\n"
  else if lstarts line "functionstarttime" then
    some ("FunctionStartTime(min)," ++ toString func.start_time ++ "\n")
  else if lstarts line "functionendtime" then
    some ("FunctionEndTime(min)," ++ toString func.stop_time ++ "\n")
  else if lstarts line "functionstartmass" then
    some ("FunctionStartMass," ++ toString func.ms_start ++ "\n")
  else if lstarts line "functionendmass" then
    some ("FunctionEndMass," ++ toString func.ms_end ++ "\n")
  else if lstarts line "functionscantime" then
    some ("FunctionScanTime(sec)," ++ toString func.scantime ++ "\n")
  else if lstarts line "tofsetmass" then
    some ("TOFSetMass," ++ toString func.select_mz ++ "\n")
  else if lstarts line "tofcollisionenergy" ∨ lstarts line "fixedcollisionenergy" then
    if func.msms_mode then
      if lstarts line "tofcollisionenergy" then
        some ("TOFCollisionEnergy," ++ toString func.cv ++ "\n")
      else some line
    else
      if lstarts line "fixedcollisionenergy" ∧ ¬ lstarts line "fixedcollisionenergy2" then
        some ("FixedCollisionEnergy," ++ toString func.cv ++ "\n")
      else some line
  else some line

/-- Embeds `gen_function_lines`: rewrite every base-file function line in
order, aborting (as the Python `KeyError` would) on a failed optics-mode
lookup. -/
def gen_function_lines (func : Function) (index : ℕ) (basefunc_lines : List String)
    (optic_mode : String) : Option (List String) :=
  basefunc_lines.mapM (gen_function_line func index optic_mode)

/-! ### Filename derivation of `make_method_file`
(MethodEditor_Main.py lines 169-175)

Only the filename computation is embedded: the remainder of
`make_method_file` performs template rewriting (embedded above) and file
I/O.  Python's `function_list[0]` / `function_list[-1]` raise `IndexError`
on an empty list, hence the `Option` result.  `str` of an exact decimal is
embedded as `toString` of the rational. -/

def make_method_file_name (function_list : List Function) (p : MethodParams) :
    Option String :=
  match function_list.head?, function_list.getLast? with
  | some f0, some flast =>
    let optic_short := p.optic_mode.take 1
    let cv_range := toString f0.cv ++ "-" ++ toString flast.cv
    if p.combine_all_bool then
      some (p.sample_name ++ "_" ++ toString p.mz ++ "_" ++ optic_short ++ "_" ++
        toString p.cv_step ++ "V_" ++ toString p.collect_time ++ "min_" ++ cv_range ++
        "V_COMBINED.exp")
    else
      some (p.sample_name ++ "_" ++ toString p.mz ++ "_" ++ optic_short ++ "_" ++
        toString p.cv_step ++ "V_" ++ toString p.collect_time ++ "min_" ++ cv_range ++
        "V.exp")
  | _, _ => none

/-- The filename as the specification words it ("the realized voltage range
(`min..max` across the records in this document)"): identical to
`make_method_file_name` except that the voltage range is the minimum and
maximum `cv` over the records rather than the first and last record's `cv`.
Stated only to be compared against the embedding of the source. -/
def make_method_file_name_minmax (function_list : List Function) (p : MethodParams) :
    Option String :=
  match (function_list.map Function.cv).min?, (function_list.map Function.cv).max? with
  | some mn, some mx =>
    let optic_short := p.optic_mode.take 1
    let cv_range := toString mn ++ "-" ++ toString mx
    if p.combine_all_bool then
      some (p.sample_name ++ "_" ++ toString p.mz ++ "_" ++ optic_short ++ "_" ++
        toString p.cv_step ++ "V_" ++ toString p.collect_time ++ "min_" ++ cv_range ++
        "V_COMBINED.exp")
    else
      some (p.sample_name ++ "_" ++ toString p.mz ++ "_" ++ optic_short ++ "_" ++
        toString p.cv_step ++ "V_" ++ toString p.collect_time ++ "min_" ++ cv_range ++
        "V.exp")
  | _, _ => none

/-! ### Concrete sample inputs

Used by the closed witness and counterexample theorems below. -/

/-- A sample MS-mode record with collision voltage `i`. -/
def sampleFunc (i : ℚ) : Function :=
  { msms_mode := false, select_mz := 500, ms_start := 100, ms_end := 2000,
    cv := i, scantime := 1, start_time := 0, stop_time := 1 }

/-- A sample MSMS-mode record with collision voltage `10`. -/
def sampleMsmsFunc : Function := { sampleFunc 10 with msms_mode := true }

/-- A sample parameter container: MS mode, ramp `0..2` in steps of `1`,
one minute per step, no initial delay. -/
def sampleParams : MethodParams :=
  { combine_all_bool := false, msms_bool := false, optic_mode := "sensitivity",
    functions_per_file := 30, delay_time_init := 0, mz := 500, sample_name := "samp",
    cv_step := 1, cv_start := 0, cv_end := 2, ms_start := 100, ms_end := 2000,
    collect_time := 1, scan_time := 1 }

/-- A second sample container with a different voltage window, for the
combined-output-mode theorems. -/
def sampleParams2 : MethodParams :=
  { sampleParams with cv_start := 10, cv_end := 11, collect_time := 2 }

/-! ## Theorems -/

/-- `Rat.floor` is the floor of the `FloorRing` instance on `ℚ`. -/
theorem rat_floor_eq (q : ℚ) : q.floor = ⌊q⌋ := rfl

/-! ### File splitter: claims C1, C8, C10 -/

/-- When the limit is non-positive, the counter (which starts at `1` and
never drops below `1`) exceeds it on every iteration, so every record opens
a fresh group. -/
theorem split_loop_nonpos (num : ℤ) (h : num ≤ 0) :
    ∀ (rest : List Function) (c : ℤ) (outs : List (List Function)) (cur : List Function),
      1 ≤ c → split_loop num rest c outs cur = outs ++ [cur] ++ rest.map (fun f => [f]) := by
  intro rest
  induction rest with
  | nil => intro c outs cur _; simp [split_loop]
  | cons f r ih =>
    intro c outs cur hc
    rw [split_loop, if_pos (by omega)]
    rw [ih 1 (outs ++ [cur]) [f] le_rfl]
    simp

/-- Claim C10: splitting the empty record list yields exactly one group,
and that group is empty, for every limit — never a zero-length list of
groups. -/
theorem split_to_multiple_files_empty (num_funcs_per_file : ℤ) :
    split_to_multiple_files [] num_funcs_per_file = [[]] := rfl

/-- Claim C1, evaluated at the failing input: with limit `2`, five records
are split into groups of sizes `2` and `3`.  After the first group is
flushed, the code seeds the new group with the overflowing record but
resets `func_counter` to `1`, so the new group accepts `2` further records.
The claimed grouping (every group except possibly the last of size `2`,
the last of size between `1` and `2`) is violated: the final group has
three records. -/
theorem split_to_multiple_files_overflow :
    split_to_multiple_files
        [sampleFunc 1, sampleFunc 2, sampleFunc 3, sampleFunc 4, sampleFunc 5] 2 =
      [[sampleFunc 1, sampleFunc 2], [sampleFunc 3, sampleFunc 4, sampleFunc 5]] := by
  decide

/-- Claim C8, counterexample: a non-positive limit is not detected and
reported — the splitter happily produces output groups (an empty first
group, then a singleton group). -/
theorem split_to_multiple_files_zero_limit_groups :
    split_to_multiple_files [sampleFunc 1] 0 = [[], [sampleFunc 1]] := by decide

/-- Claim C8 (amended): no validation is performed on a non-positive
limit; instead of failing, the splitter returns an empty first group
followed by one singleton group per record. -/
theorem split_to_multiple_files_nonpos_limit (func_list : List Function)
    (num_funcs_per_file : ℤ) (h : num_funcs_per_file ≤ 0) :
    split_to_multiple_files func_list num_funcs_per_file =
      [] :: func_list.map (fun f => [f]) := by
  rw [split_to_multiple_files,
    split_loop_nonpos num_funcs_per_file h func_list 1 [] [] le_rfl]
  simp

/-- Witness for the amended claim C8 at a concrete input. -/
theorem split_to_multiple_files_nonpos_limit_witness :
    (0 : ℤ) ≤ 0 ∧
      split_to_multiple_files [sampleFunc 2] 0 = [] :: [sampleFunc 2].map (fun f => [f]) :=
  ⟨le_rfl, split_to_multiple_files_nonpos_limit [sampleFunc 2] 0 le_rfl⟩

/-! ### `parse_value`: claim C9 -/

/-- Claim C9: a string containing an underscore is never parsed as an
integer or exact-decimal value — the underscore guards raise before either
numeric parser is consulted, so the value falls through to the boolean
keyword check or is returned as the original string. -/
theorem parse_value_underscore_not_numeric (value : String) (h : '_' ∈ value.data) :
    (∃ b, parse_value value = PyValue.boolVal b) ∨
      parse_value value = PyValue.strVal value := by
  have hne : value ≠ "None" := by
    rintro rfl
    exact absurd h (by decide)
  by_cases h1 : String.mk (pyLower value.data) ∈ (["true", "t", "yes", "y"] : List String)
  · exact Or.inl ⟨true, by simp [parse_value, hne, h, h1]⟩
  by_cases h2 : String.mk (pyLower value.data) ∈ (["false", "f", "no", "n"] : List String)
  · exact Or.inl ⟨false, by simp [parse_value, hne, h, h1, h2]⟩
  · exact Or.inr (by simp [parse_value, hne, h, h1, h2])

/-- Witness for claim C9: the date-like string of the source comment. -/
theorem parse_value_underscore_not_numeric_witness :
    '_' ∈ "10_16_2018".data ∧
      ((∃ b, parse_value "10_16_2018" = PyValue.boolVal b) ∨
        parse_value "10_16_2018" = PyValue.strVal "10_16_2018") :=
  ⟨by decide, parse_value_underscore_not_numeric "10_16_2018" (by decide)⟩

/-! ### Template segmentation: claims C2 and C4 -/

/-- A header-state line that matches neither marker is appended to the
header buffer and changes no flag. -/
theorem seg_step_header_no_term (msms_bool : Bool) (st : SegState) (line : String)
    (hh : st.header = true) (hL : ¬ lstarts line "function 1")
    (ht : ¬ term_marker msms_bool line) :
    seg_step msms_bool st line = { st with header_lines := st.header_lines ++ [line] } := by
  simp [seg_step, hh, hL, ht]

/-- A header-state line that matches no start marker is appended to the
header buffer whatever the footer flag is. -/
theorem seg_step_header_any (msms_bool : Bool) (st : SegState) (line : String)
    (hh : st.header = true) (hL : ¬ lstarts line "function 1") :
    seg_step msms_bool st line =
      { st with header_lines := st.header_lines ++ [line],
                footer := if term_marker msms_bool line then true else st.footer } := by
  simp [seg_step, hh, hL]

/-- A block-state line with no terminal marker is appended to the function
buffer. -/
theorem seg_step_block (msms_bool : Bool) (st : SegState) (line : String)
    (hh : st.header = false) (hf : st.footer = false)
    (ht : ¬ term_marker msms_bool line) :
    seg_step msms_bool st line =
      { st with function_lines := st.function_lines ++ [line] } := by
  simp [seg_step, hh, hf, ht, ite_self]

/-- The line carrying the `function 1` start marker clears the header flag
first and is then itself filed into the function buffer (the buffer choice
is made with the already-updated flag). -/
theorem seg_step_block_start (msms_bool : Bool) (st : SegState) (line : String)
    (hL : lstarts line "function 1") (hf : st.footer = false)
    (ht : ¬ term_marker msms_bool line) :
    seg_step msms_bool st line =
      { st with header := false, function_lines := st.function_lines ++ [line] } := by
  simp [seg_step, hL, hf, ht]

/-- The line carrying the terminal marker is filed into the function
buffer first and only then raises the footer flag. -/
theorem seg_step_block_end (msms_bool : Bool) (st : SegState) (line : String)
    (hh : st.header = false) (hf : st.footer = false)
    (ht : term_marker msms_bool line) :
    seg_step msms_bool st line =
      { st with function_lines := st.function_lines ++ [line], footer := true } := by
  simp [seg_step, hh, hf, ht, ite_self]

/-- Once the footer flag is up (and the header flag down), every line goes
to the footer buffer. -/
theorem seg_step_footer (msms_bool : Bool) (st : SegState) (line : String)
    (hh : st.header = false) (hf : st.footer = true) :
    seg_step msms_bool st line =
      { st with footer_lines := st.footer_lines ++ [line] } := by
  simp [seg_step, hh, hf, ite_self]

/-- A line that does not raise the footer flag leaves the footer buffer
untouched. -/
theorem seg_step_no_term (msms_bool : Bool) (st : SegState) (line : String)
    (hf : st.footer = false) (ht : ¬ term_marker msms_bool line) :
    (seg_step msms_bool st line).footer = false ∧
      (seg_step msms_bool st line).footer_lines = st.footer_lines := by
  cases hb : (if lstarts line "function 1" then false else st.header) <;>
    simp [seg_step, hb, hf, ht]

/-- While no start marker has been seen, every line accumulates onto the
header buffer and the other two buffers are unchanged. -/
theorem seg_fold_all_header (msms_bool : Bool) :
    ∀ (lines : List String) (st : SegState), st.header = true →
      (∀ l ∈ lines, ¬ lstarts l "function 1") →
      ((lines.foldl (seg_step msms_bool) st).header_lines = st.header_lines ++ lines ∧
       (lines.foldl (seg_step msms_bool) st).function_lines = st.function_lines ∧
       (lines.foldl (seg_step msms_bool) st).footer_lines = st.footer_lines) := by
  intro lines
  induction lines with
  | nil => intro st _ _; simp
  | cons l r ih =>
    intro st hh hall
    rw [List.foldl_cons, seg_step_header_any msms_bool st l hh (hall l (by simp))]
    obtain ⟨e1, e2, e3⟩ :=
      ih ({ st with header_lines := st.header_lines ++ [l],
                    footer := if term_marker msms_bool l then true else st.footer })
        (by simp [hh]) fun x hx => hall x (by simp [hx])
    rw [e1, e2, e3]
    simp

/-- While no terminal marker occurs and the footer flag is down, the
footer buffer stays as it is. -/
theorem seg_fold_no_term (msms_bool : Bool) :
    ∀ (lines : List String) (st : SegState), st.footer = false →
      (∀ l ∈ lines, ¬ term_marker msms_bool l) →
      (lines.foldl (seg_step msms_bool) st).footer_lines = st.footer_lines := by
  intro lines
  induction lines with
  | nil => intro st _ _; simp
  | cons l r ih =>
    intro st hf hall
    obtain ⟨e1, e2⟩ := seg_step_no_term msms_bool st l hf (hall l (by simp))
    rw [List.foldl_cons, ih _ e1 fun x hx => hall x (by simp [hx]), e2]

/-- Header phase of a well-formed template: no marker of either kind. -/
theorem seg_fold_hs (msms_bool : Bool) :
    ∀ (lines : List String) (st : SegState), st.header = true → st.footer = false →
      (∀ l ∈ lines, ¬ lstarts l "function 1" ∧ ¬ term_marker msms_bool l) →
      lines.foldl (seg_step msms_bool) st =
        { st with header_lines := st.header_lines ++ lines } := by
  intro lines
  induction lines with
  | nil => intro st _ _ _; simp
  | cons l r ih =>
    intro st hh hf hall
    rw [List.foldl_cons,
      seg_step_header_no_term msms_bool st l hh (hall l (by simp)).1 (hall l (by simp)).2,
      ih ({ st with header_lines := st.header_lines ++ [l] }) (by simp [hh]) (by simp [hf])
        fun x hx => hall x (by simp [hx])]
    simp

/-- Block phase: terminal-marker-free lines accumulate onto the function
buffer. -/
theorem seg_fold_block (msms_bool : Bool) :
    ∀ (lines : List String) (st : SegState), st.header = false → st.footer = false →
      (∀ l ∈ lines, ¬ term_marker msms_bool l) →
      lines.foldl (seg_step msms_bool) st =
        { st with function_lines := st.function_lines ++ lines } := by
  intro lines
  induction lines with
  | nil => intro st _ _ _; simp
  | cons l r ih =>
    intro st hh hf hall
    rw [List.foldl_cons, seg_step_block msms_bool st l hh hf (hall l (by simp)),
      ih ({ st with function_lines := st.function_lines ++ [l] }) (by simp [hh])
        (by simp [hf]) fun x hx => hall x (by simp [hx])]
    simp

/-- Footer phase: every remaining line accumulates onto the footer
buffer. -/
theorem seg_fold_footer (msms_bool : Bool) :
    ∀ (lines : List String) (st : SegState), st.header = false → st.footer = true →
      lines.foldl (seg_step msms_bool) st =
        { st with footer_lines := st.footer_lines ++ lines } := by
  intro lines
  induction lines with
  | nil => intro st _ _; simp
  | cons l r ih =>
    intro st hh hf
    rw [List.foldl_cons, seg_step_footer msms_bool st l hh hf,
      ih ({ st with footer_lines := st.footer_lines ++ [l] }) (by simp [hh]) (by simp [hf])]
    simp

/-- Claim C2 (amended): segmentation has no failure path.  When the
`function 1` start marker never occurs, the function returns normally with
every line (except the dropped final one) in the header, the function
buffer holding only its seed blank line, and an empty footer; when no
mode-appropriate terminal marker occurs, the returned footer is empty. -/
theorem get_basefile_lines_no_markers (lines : List String) (msms_bool : Bool) :
    ((∀ l ∈ lines, ¬ lstarts l "function 1") →
      get_basefile_lines lines msms_bool = (lines.dropLast, ["\n"], [])) ∧
    ((∀ l ∈ lines, ¬ term_marker msms_bool l) →
      (get_basefile_lines lines msms_bool).2.2 = []) := by
  constructor
  · intro hall
    obtain ⟨e1, e2, e3⟩ :=
      seg_fold_all_header msms_bool lines ⟨true, false, [], ["\n"], []⟩ rfl hall
    simp [get_basefile_lines, e1, e2, e3]
  · intro hall
    have e := seg_fold_no_term msms_bool lines ⟨true, false, [], ["\n"], []⟩ rfl hall
    simp [get_basefile_lines, e]

/-- Witness for the amended claim C2 at a concrete marker-free input. -/
theorem get_basefile_lines_no_markers_witness :
    (∀ l ∈ (["AAA\n", "BBB\n"] : List String), ¬ lstarts l "function 1") ∧
      get_basefile_lines ["AAA\n", "BBB\n"] false = (["AAA\n"], ["\n"], []) :=
  ⟨by decide, (get_basefile_lines_no_markers ["AAA\n", "BBB\n"] false).1 (by decide)⟩

/-- Claim C2, counterexample: on an input with no markers at all the code
does not fail — `get_basefile_lines` returns an ordinary result. -/
theorem get_basefile_lines_missing_marker_returns :
    get_basefile_lines ["AAA\n", "BBB\n"] false = (["AAA\n"], ["\n"], []) := by decide

/-- Claim C4 (amended): on a well-formed template — header lines free of
both markers, then the start-marker line, then terminal-marker-free block
lines, then the terminal-marker line, then the rest — every input line
lands in exactly one buffer: the header keeps the pre-marker lines (minus
the dropped final one), the function block consists of its pre-seeded
blank line followed by the start-marker line (the header→block trigger is
the first *input* line of the block, right after the seed), the block
lines and the terminal-marker line (the block→footer trigger stays in the
block), and the footer takes everything after. -/
theorem get_basefile_lines_partition (msms_bool : Bool) (hs bs fs : List String)
    (s e : String)
    (hhs : ∀ l ∈ hs, ¬ lstarts l "function 1" ∧ ¬ term_marker msms_bool l)
    (hstart : lstarts s "function 1") (hsterm : ¬ term_marker msms_bool s)
    (hbs : ∀ l ∈ bs, ¬ term_marker msms_bool l)
    (hend : term_marker msms_bool e) :
    get_basefile_lines (hs ++ s :: (bs ++ e :: fs)) msms_bool =
      (hs.dropLast, "\n" :: s :: (bs ++ [e]), fs) := by
  simp only [get_basefile_lines]
  rw [List.foldl_append, seg_fold_hs msms_bool hs _ rfl rfl hhs, List.foldl_cons,
    seg_step_block_start msms_bool _ s hstart (by simp) hsterm, List.foldl_append,
    seg_fold_block msms_bool bs _ (by simp) (by simp) hbs, List.foldl_cons,
    seg_step_block_end msms_bool _ e (by simp) (by simp) hend,
    seg_fold_footer msms_bool fs _ (by simp) (by simp)]
  simp

/-- Witness for the amended claim C4 on a concrete well-formed MS-mode
template. -/
theorem get_basefile_lines_partition_witness :
    (∀ l ∈ (["H1\n", "H2\n"] : List String),
        ¬ lstarts l "function 1" ∧ ¬ term_marker false l) ∧
      lstarts "FUNCTION 1\n" "function 1" ∧
      get_basefile_lines
          (["H1\n", "H2\n"] ++ "FUNCTION 1\n" ::
            (["B\n"] ++ "FastDDAMSMSScanTime,1\n" :: ["F\n"])) false =
        (["H1\n", "H2\n"].dropLast,
          "\n" :: "FUNCTION 1\n" :: (["B\n"] ++ ["FastDDAMSMSScanTime,1\n"]), ["F\n"]) :=
  ⟨by decide, by decide,
    get_basefile_lines_partition false ["H1\n", "H2\n"] ["B\n"] ["F\n"]
      "FUNCTION 1\n" "FastDDAMSMSScanTime,1\n" (by decide) (by decide) (by decide)
      (by decide) (by decide)⟩

/-- Claim C4, counterexample: the function buffer is pre-seeded with a
blank line, so the line that triggers the header→block transition is *not*
the first line of the block buffer — the seed is. -/
theorem get_basefile_lines_block_head_is_seed :
    get_basefile_lines ["H1\n", "H2\n", "FUNCTION 1\n", "B\n", "ScansSum,1\n", "F1\n"]
        true =
      (["H1\n"], ["\n", "FUNCTION 1\n", "B\n", "ScansSum,1\n"], ["F1\n"]) ∧
    (get_basefile_lines ["H1\n", "H2\n", "FUNCTION 1\n", "B\n", "ScansSum,1\n", "F1\n"]
          true).2.1.head? ≠ some "FUNCTION 1\n" := by
  decide

/-! ### Sequence generation: claims C3 and C5 -/

/-- Contiguous runs compose. -/
theorem timedFrom_append :
    ∀ (l1 : List Function) (t t1 t2 : ℚ) (l2 : List Function),
      TimedFrom t l1 t1 → TimedFrom t1 l2 t2 → TimedFrom t (l1 ++ l2) t2 := by
  intro l1
  induction l1 with
  | nil =>
    intro t t1 t2 l2 h1 h2
    simp only [TimedFrom] at h1
    subst h1
    simpa using h2
  | cons f r ih =>
    intro t t1 t2 l2 h1 h2
    simp only [TimedFrom] at h1 ⊢
    exact ⟨h1.1, ih _ _ _ _ h1.2 h2⟩

/-- A contiguous run is a stop-time/start-time chain. -/
theorem timedFrom_chain' :
    ∀ (l : List Function) (t tEnd : ℚ), TimedFrom t l tEnd →
      List.Chain' (fun a b => a.stop_time = b.start_time) l := by
  intro l
  induction l with
  | nil => intro t tEnd _; simp
  | cons f r ih =>
    intro t tEnd h
    simp only [TimedFrom] at h
    cases r with
    | nil => simp
    | cons g r2 =>
      rw [List.chain'_cons]
      exact ⟨h.2.1.symm, ih _ _ h.2⟩

/-- A contiguous run starting at `t` starts its first record at `t`. -/
theorem timedFrom_head {t tEnd : ℚ} {f : Function} {rest : List Function}
    (h : TimedFrom t (f :: rest) tEnd) : f.start_time = t := h.1

/-- The ramp loop is contiguous from its starting clock to its returned
clock. -/
theorem make_funcs_ramp_timed (p : MethodParams) :
    ∀ (n : ℕ) (t v : ℚ),
      TimedFrom t (make_funcs_ramp p n t v).1 (make_funcs_ramp p n t v).2 := by
  intro n
  induction n with
  | zero => intro t v; simp [make_funcs_ramp, TimedFrom]
  | succ n ih =>
    intro t v
    by_cases hv : v ≤ p.cv_end
    · simp only [make_funcs_ramp, if_pos hv]
      exact ⟨rfl, ih (t + p.collect_time) (v + p.cv_step)⟩
    · simp [make_funcs_ramp, if_neg hv, TimedFrom]

/-- One spec's records (optional delay plus ramp) are contiguous from the
incoming clock to the returned clock. -/
theorem make_funcs_one_timed (p : MethodParams) (t : ℚ) :
    TimedFrom t (make_funcs_one p t).1 (make_funcs_one p t).2 := by
  unfold make_funcs_one
  by_cases hd : 0 < p.delay_time_init
  · simp only [hd, if_true]
    exact timedFrom_append _ _ _ _ _ ⟨rfl, rfl⟩
      (make_funcs_ramp_timed p (ramp_count p) (t + p.delay_time_init) p.cv_start)
  · simp only [hd, if_false]
    simpa using make_funcs_ramp_timed p (ramp_count p) t p.cv_start

/-- The whole generator output is contiguous from the incoming clock. -/
theorem make_funcs_go_timed :
    ∀ (ps : List MethodParams) (t : ℚ), ∃ tEnd, TimedFrom t (make_funcs_go ps t) tEnd := by
  intro ps
  induction ps with
  | nil => intro t; exact ⟨t, rfl⟩
  | cons p rest ih =>
    intro t
    obtain ⟨tE, hE⟩ := ih (make_funcs_one p t).2
    exact ⟨tE, timedFrom_append _ _ _ _ _ (make_funcs_one_timed p t) hE⟩

/-- Sanity of the iteration count used to embed the `while` loop: once
the voltage would exceed the ceiling after `n` steps, granting the loop
more than `n` iterations changes nothing. -/
theorem make_funcs_ramp_extra_fuel (p : MethodParams) :
    ∀ (n k : ℕ) (t v : ℚ), p.cv_end < v + (n : ℚ) * p.cv_step →
      make_funcs_ramp p (n + k) t v = make_funcs_ramp p n t v := by
  intro n
  induction n with
  | zero =>
    intro k t v hlt
    simp only [Nat.cast_zero, zero_mul, add_zero] at hlt
    cases k with
    | zero => rfl
    | succ k => simp [make_funcs_ramp, not_le.mpr hlt]
  | succ n ih =>
    intro k t v hlt
    rw [show n + 1 + k = (n + k) + 1 by omega]
    by_cases hv : v ≤ p.cv_end
    · simp only [make_funcs_ramp, if_pos hv]
      rw [ih k (t + p.collect_time) (v + p.cv_step) (by push_cast at hlt ⊢; linarith)]
    · simp only [make_funcs_ramp, if_neg hv]

/-- `ramp_count` iterations are enough for a positive step: the embedded
loop computes the full `while` loop, not a truncation of it. -/
theorem ramp_count_sufficient (p : MethodParams) (h2 : 0 < p.cv_step) (k : ℕ) (t : ℚ) :
    make_funcs_ramp p (ramp_count p + k) t p.cv_start =
      make_funcs_ramp p (ramp_count p) t p.cv_start := by
  apply make_funcs_ramp_extra_fuel
  by_cases h1 : p.cv_start ≤ p.cv_end
  · have hnn : 0 ≤ ((p.cv_end - p.cv_start) / p.cv_step).floor := by
      rw [rat_floor_eq]
      exact Int.floor_nonneg.mpr (div_nonneg (by linarith) h2.le)
    have hq : (p.cv_end - p.cv_start) / p.cv_step <
        (((p.cv_end - p.cv_start) / p.cv_step).floor : ℚ) + 1 := by
      rw [rat_floor_eq]
      exact Int.lt_floor_add_one _
    have h3 : ((((p.cv_end - p.cv_start) / p.cv_step).floor + 1).toNat : ℤ) =
        ((p.cv_end - p.cv_start) / p.cv_step).floor + 1 :=
      Int.toNat_of_nonneg (by omega)
    have hcast : (ramp_count p : ℚ) =
        (((p.cv_end - p.cv_start) / p.cv_step).floor : ℚ) + 1 := by
      unfold ramp_count
      exact_mod_cast h3
    rw [hcast]
    have hmul := (div_lt_iff₀ h2).mp hq
    linarith
  · push_neg at h1
    have hmul : 0 ≤ (ramp_count p : ℚ) * p.cv_step :=
      mul_nonneg (Nat.cast_nonneg _) h2.le
    linarith

/-- Every record the ramp loop emits from voltage `v` has `cv` at least
`v` (the loop only adds the non-negative step). -/
theorem make_funcs_ramp_cv_lb (p : MethodParams) (hs : 0 ≤ p.cv_step) :
    ∀ (n : ℕ) (t v : ℚ) (f : Function), f ∈ (make_funcs_ramp p n t v).1 → v ≤ f.cv := by
  intro n
  induction n with
  | zero => intro t v f hf; simp [make_funcs_ramp] at hf
  | succ n ih =>
    intro t v f hf
    by_cases hv : v ≤ p.cv_end
    · simp only [make_funcs_ramp, if_pos hv, List.mem_cons] at hf
      rcases hf with rfl | hf
      · exact le_refl v
      · have := ih _ _ f hf
        linarith
    · simp [make_funcs_ramp, if_neg hv] at hf

/-- The ramp's collision voltages are non-decreasing. -/
theorem make_funcs_ramp_cv_pairwise (p : MethodParams) (hs : 0 ≤ p.cv_step) :
    ∀ (n : ℕ) (t v : ℚ),
      List.Pairwise (fun a b => a.cv ≤ b.cv) (make_funcs_ramp p n t v).1 := by
  intro n
  induction n with
  | zero => intro t v; simp [make_funcs_ramp]
  | succ n ih =>
    intro t v
    by_cases hv : v ≤ p.cv_end
    · simp only [make_funcs_ramp, if_pos hv]
      refine List.Pairwise.cons (fun b hb => ?_) (ih _ _)
      have := make_funcs_ramp_cv_lb p hs n _ _ b hb
      show v ≤ b.cv
      linarith
    · simp [make_funcs_ramp, if_neg hv]

/-- One spec's collision voltages are non-decreasing: the delay record (if
any) sits at `cv_start` and the ramp never drops below it. -/
theorem make_funcs_one_cv_pairwise (p : MethodParams) (hs : 0 ≤ p.cv_step) (t : ℚ) :
    List.Pairwise (fun a b => a.cv ≤ b.cv) (make_funcs_one p t).1 := by
  unfold make_funcs_one
  by_cases hd : 0 < p.delay_time_init
  · simp only [hd, if_true]
    rw [List.pairwise_append]
    refine ⟨by simp, make_funcs_ramp_cv_pairwise p hs _ _ _, ?_⟩
    intro a ha b hb
    simp only [List.mem_singleton] at ha
    subst ha
    exact make_funcs_ramp_cv_lb p hs _ _ _ b hb
  · simp only [hd, if_false]
    simpa using make_funcs_ramp_cv_pairwise p hs (ramp_count p) t p.cv_start

/-- With fuel available and a voltage still within the ceiling, the ramp
emits at least one record. -/
theorem make_funcs_ramp_ne_nil (p : MethodParams) (n : ℕ) (t v : ℚ)
    (hn : 0 < n) (hv : v ≤ p.cv_end) : (make_funcs_ramp p n t v).1 ≠ [] := by
  cases n with
  | zero => exact absurd hn (lt_irrefl 0)
  | succ n => simp [make_funcs_ramp, if_pos hv]

/-- A valid sweep window gives the ramp loop a positive iteration count. -/
theorem ramp_count_pos (p : MethodParams) (h1 : p.cv_start ≤ p.cv_end)
    (h2 : 0 < p.cv_step) : 0 < ramp_count p := by
  unfold ramp_count
  have hfl : 0 ≤ ((p.cv_end - p.cv_start) / p.cv_step).floor := by
    rw [rat_floor_eq]
    exact Int.floor_nonneg.mpr (div_nonneg (by linarith) (le_of_lt h2))
  omega

/-- One spec with a valid window emits at least one record. -/
theorem make_funcs_one_ne_nil (p : MethodParams) (t : ℚ)
    (h1 : p.cv_start ≤ p.cv_end) (h2 : 0 < p.cv_step) :
    (make_funcs_one p t).1 ≠ [] := by
  unfold make_funcs_one
  by_cases hd : 0 < p.delay_time_init
  · simp [hd]
  · simp only [hd, if_false, List.nil_append]
    exact make_funcs_ramp_ne_nil p (ramp_count p) t p.cv_start
      (ramp_count_pos p h1 h2) h1

/-- Claim C3: for a single spec with `cv_start ≤ cv_end` and a positive
step, `make_funcs` returns a non-empty list in which each record's stop
time is the next record's start time and collision voltages are
monotonically non-decreasing across the list. -/
theorem make_funcs_single_spec (p : MethodParams)
    (h1 : p.cv_start ≤ p.cv_end) (h2 : 0 < p.cv_step) :
    make_funcs [p] ≠ [] ∧
      List.Chain' (fun a b => a.stop_time = b.start_time) (make_funcs [p]) ∧
      List.Pairwise (fun a b => a.cv ≤ b.cv) (make_funcs [p]) := by
  have hgo : make_funcs [p] = (make_funcs_one p 0).1 := by
    simp [make_funcs, make_funcs_go]
  refine ⟨?_, ?_, ?_⟩
  · rw [hgo]; exact make_funcs_one_ne_nil p 0 h1 h2
  · rw [hgo]; exact timedFrom_chain' _ _ _ (make_funcs_one_timed p 0)
  · rw [hgo]; exact make_funcs_one_cv_pairwise p (le_of_lt h2) 0

/-- Witness for claim C3 at the concrete sample spec. -/
theorem make_funcs_single_spec_witness :
    sampleParams.cv_start ≤ sampleParams.cv_end ∧ 0 < sampleParams.cv_step ∧
      (make_funcs [sampleParams] ≠ [] ∧
        List.Chain' (fun a b => a.stop_time = b.start_time) (make_funcs [sampleParams]) ∧
        List.Pairwise (fun a b => a.cv ≤ b.cv) (make_funcs [sampleParams])) :=
  ⟨by decide, by decide, make_funcs_single_spec sampleParams (by decide) (by decide)⟩

/-- The voltages the ramp emits do not depend on the incoming clock. -/
theorem make_funcs_ramp_map_cv (p : MethodParams) :
    ∀ (n : ℕ) (t t' v : ℚ),
      (make_funcs_ramp p n t v).1.map Function.cv =
        (make_funcs_ramp p n t' v).1.map Function.cv := by
  intro n
  induction n with
  | zero => intro t t' v; simp [make_funcs_ramp]
  | succ n ih =>
    intro t t' v
    by_cases hv : v ≤ p.cv_end
    · simp only [make_funcs_ramp, if_pos hv, List.map_cons]
      rw [ih (t + p.collect_time) (t' + p.collect_time) (v + p.cv_step)]
      rfl
    · simp [make_funcs_ramp, if_neg hv]

/-- One spec's voltage sequence does not depend on the incoming clock:
it always equals the sequence of a fresh single-spec invocation. -/
theorem make_funcs_one_map_cv (p : MethodParams) (t : ℚ) :
    (make_funcs_one p t).1.map Function.cv = (make_funcs_one p 0).1.map Function.cv := by
  unfold make_funcs_one
  by_cases hd : 0 < p.delay_time_init
  · simp only [hd, if_true, List.map_append, List.map_cons, List.map_nil]
    rw [make_funcs_ramp_map_cv p (ramp_count p) (t + p.delay_time_init)
      (0 + p.delay_time_init) p.cv_start]
  · simp only [hd, if_false, List.nil_append]
    exact make_funcs_ramp_map_cv p (ramp_count p) t 0 p.cv_start

/-- The generator's voltage sequence is the concatenation of the
single-spec voltage sequences, whatever the threaded clock. -/
theorem make_funcs_go_map_cv :
    ∀ (ps : List MethodParams) (t : ℚ),
      (make_funcs_go ps t).map Function.cv =
        (ps.map fun p => (make_funcs [p]).map Function.cv).flatten := by
  intro ps
  induction ps with
  | nil => intro t; simp [make_funcs_go]
  | cons p rest ih =>
    intro t
    simp only [make_funcs_go, List.map_append, List.map_cons, List.flatten_cons]
    rw [ih, make_funcs_one_map_cv p t]
    congr 1
    simp [make_funcs, make_funcs_go]

/-- Claim C5: invoked over several specs, the generator threads one
running clock — the combined output is time-contiguous and starts at
`0` — while each spec's voltage ramp restarts independently, producing
exactly the voltage sequence of a fresh single-spec invocation. -/
theorem make_funcs_combined (ps : List MethodParams) :
    List.Chain' (fun a b => a.stop_time = b.start_time) (make_funcs ps) ∧
      (make_funcs ps).map Function.cv =
        (ps.map fun p => (make_funcs [p]).map Function.cv).flatten ∧
      (∀ f, (make_funcs ps).head? = some f → f.start_time = 0) := by
  refine ⟨?_, make_funcs_go_map_cv ps 0, ?_⟩
  · obtain ⟨tE, hE⟩ := make_funcs_go_timed ps 0
    exact timedFrom_chain' _ _ _ hE
  · intro f hf
    obtain ⟨tE, hE⟩ := make_funcs_go_timed ps 0
    cases hml : make_funcs_go ps 0 with
    | nil =>
      rw [show make_funcs ps = make_funcs_go ps 0 from rfl, hml] at hf
      simp at hf
    | cons g rest =>
      rw [show make_funcs ps = make_funcs_go ps 0 from rfl, hml] at hf
      simp only [List.head?_cons, Option.some.injEq] at hf
      rw [hml] at hE
      rw [← hf]
      exact timedFrom_head hE

/-- Witness for claim C5: with the two sample specs, the first emitted
record starts the clock at `0`. -/
theorem make_funcs_combined_witness :
    (make_funcs [sampleParams, sampleParams2]).head? =
        some (mk_ramp_func sampleParams 0 0) ∧
      (mk_ramp_func sampleParams 0 0).start_time = 0 := by
  have hc1 : ramp_count sampleParams = 3 := by
    norm_num [ramp_count, sampleParams, rat_floor_eq]
    decide
  have hc2 : ramp_count sampleParams2 = 2 := by
    norm_num [ramp_count, sampleParams2, sampleParams, rat_floor_eq]
    decide
  simp only [sampleParams, sampleParams2] at hc1 hc2
  have hhead : (make_funcs [sampleParams, sampleParams2]).head? =
      some (mk_ramp_func sampleParams 0 0) := by
    norm_num [make_funcs, make_funcs_go, make_funcs_one, sampleParams, sampleParams2,
      hc1, hc2, make_funcs_ramp, mk_ramp_func]
  exact ⟨hhead, (make_funcs_combined [sampleParams, sampleParams2]).2.2 _ hhead⟩

/-! ### Block rewriting: claim C6 -/

/-- Claim C6: on a template line whose case-insensitive prefix is a
collision-energy marker, the rewriter substitutes `record.cv` only into
the field variant matching the record's mode — the ramped-energy
(`tofcollisionenergy`) line when `msms_mode` is set, the fixed-energy
(`fixedcollisionenergy`, but not its `2`-suffixed variant) line when it is
not — and passes the non-matching variant's line through unmodified. -/
theorem gen_function_line_collision_energy (func : Function) (index : ℕ)
    (optic_mode : String) (line : String)
    (hce : lstarts line "tofcollisionenergy" ∨ lstarts line "fixedcollisionenergy") :
    (func.msms_mode = true →
      ((lstarts line "tofcollisionenergy" →
          gen_function_line func index optic_mode line =
            some ("TOFCollisionEnergy," ++ toString func.cv ++ "\n")) ∧
        (¬ lstarts line "tofcollisionenergy" →
          gen_function_line func index optic_mode line = some line))) ∧
    (func.msms_mode = false →
      ((lstarts line "fixedcollisionenergy" → ¬ lstarts line "fixedcollisionenergy2" →
          gen_function_line func index optic_mode line =
            some ("FixedCollisionEnergy," ++ toString func.cv ++ "\n")) ∧
        (¬ (lstarts line "fixedcollisionenergy" ∧
              ¬ lstarts line "fixedcollisionenergy2") →
          gen_function_line func index optic_mode line = some line))) := by
  have n1 : ¬ lstarts line "function " :=
    hce.elim (fun h => lstarts_excl h (by decide) (by decide))
      (fun h => lstarts_excl h (by decide) (by decide))
  have n2 : ¬ lstarts line "useopticmode" :=
    hce.elim (fun h => lstarts_excl h (by decide) (by decide))
      (fun h => lstarts_excl h (by decide) (by decide))
  have n3 : ¬ lstarts line "functionstarttime" :=
    hce.elim (fun h => lstarts_excl h (by decide) (by decide))
      (fun h => lstarts_excl h (by decide) (by decide))
  have n4 : ¬ lstarts line "functionendtime" :=
    hce.elim (fun h => lstarts_excl h (by decide) (by decide))
      (fun h => lstarts_excl h (by decide) (by decide))
  have n5 : ¬ lstarts line "functionstartmass" :=
    hce.elim (fun h => lstarts_excl h (by decide) (by decide))
      (fun h => lstarts_excl h (by decide) (by decide))
  have n6 : ¬ lstarts line "functionendmass" :=
    hce.elim (fun h => lstarts_excl h (by decide) (by decide))
      (fun h => lstarts_excl h (by decide) (by decide))
  have n7 : ¬ lstarts line "functionscantime" :=
    hce.elim (fun h => lstarts_excl h (by decide) (by decide))
      (fun h => lstarts_excl h (by decide) (by decide))
  have n8 : ¬ lstarts line "tofsetmass" :=
    hce.elim (fun h => lstarts_excl h (by decide) (by decide))
      (fun h => lstarts_excl h (by decide) (by decide))
  refine ⟨fun hm => ⟨fun htof => ?_, fun htof => ?_⟩,
    fun hm => ⟨fun hfix h2 => ?_, fun hother => ?_⟩⟩ <;>
    simp [gen_function_line, n1, n2, n3, n4, n5, n6, n7, n8, hce, hm, *]

/-- Witness for claim C6: the MSMS-mode record rewrites the ramped-energy
line with its own `cv` and leaves the fixed-energy line untouched. -/
theorem gen_function_line_collision_energy_witness :
    lstarts "TOFCollisionEnergy,99\n" "tofcollisionenergy" ∧
      sampleMsmsFunc.msms_mode = true ∧
      gen_function_line sampleMsmsFunc 1 "sensitivity" "TOFCollisionEnergy,99\n" =
        some ("TOFCollisionEnergy," ++ toString sampleMsmsFunc.cv ++ "\n") :=
  ⟨by decide, by decide,
    ((gen_function_line_collision_energy sampleMsmsFunc 1 "sensitivity"
        "TOFCollisionEnergy,99\n" (Or.inl (by decide))).1 (by decide)).1 (by decide)⟩

/-! ### Filename derivation: claim C7 -/

/-- Claim C7, counterexample: a record list whose first record carries the
maximal voltage produces a filename with the range `5-3`, not the
spec-claimed `min..max` range `3-5` — the code encodes the first and last
record's voltages, not the minimum and maximum. -/
theorem make_method_file_name_not_minmax :
    make_method_file_name [sampleFunc 5, sampleFunc 3] sampleParams ≠
      make_method_file_name_minmax [sampleFunc 5, sampleFunc 3] sampleParams := by
  decide

/-- Claim C7 (amended): the filename deterministically encodes sample
name, target mass, the optics mode's initial letter, step size, collection
duration, the voltage range taken from the *first and last* record's `cv`
(for the generator's monotone output this coincides with `min..max`, but
in general it is positional), and the `_COMBINED` suffix exactly when the
combined-output flag is set. -/
theorem make_method_file_name_first_last (function_list : List Function)
    (p : MethodParams) (f0 flast : Function)
    (h0 : function_list.head? = some f0) (hl : function_list.getLast? = some flast) :
    make_method_file_name function_list p =
      some (p.sample_name ++ "_" ++ toString p.mz ++ "_" ++ p.optic_mode.take 1 ++ "_" ++
        toString p.cv_step ++ "V_" ++ toString p.collect_time ++ "min_" ++
        (toString f0.cv ++ "-" ++ toString flast.cv) ++
        (if p.combine_all_bool then "V_COMBINED.exp" else "V.exp")) := by
  cases hc : p.combine_all_bool <;>
    simp [make_method_file_name, h0, hl, hc]

/-- Witness for the amended claim C7 at a concrete two-record list. -/
theorem make_method_file_name_first_last_witness :
    ([sampleFunc 5, sampleFunc 3].head? = some (sampleFunc 5)) ∧
      ([sampleFunc 5, sampleFunc 3].getLast? = some (sampleFunc 3)) ∧
      make_method_file_name [sampleFunc 5, sampleFunc 3] sampleParams =
        some (sampleParams.sample_name ++ "_" ++ toString sampleParams.mz ++ "_" ++
          sampleParams.optic_mode.take 1 ++ "_" ++ toString sampleParams.cv_step ++
          "V_" ++ toString sampleParams.collect_time ++ "min_" ++
          (toString (sampleFunc 5).cv ++ "-" ++ toString (sampleFunc 3).cv) ++
          (if sampleParams.combine_all_bool then "V_COMBINED.exp" else "V.exp")) :=
  ⟨rfl, by decide,
    make_method_file_name_first_last [sampleFunc 5, sampleFunc 3] sampleParams
      (sampleFunc 5) (sampleFunc 3) rfl (by decide)⟩

end MethodEditor
